import Mathlib

/-!
A shallow embedding of the bbloker-go request-filtering middleware
(ip.go, engine.go, bbloker.go, the rate limiter / rule manager and the
telemetry client), with theorems checking the specification's claims.

Modelling conventions:
* Go strings are modelled as `List Char` (`Str`).  All inputs in scope are
  ASCII, where Go's byte-wise operations and `Char`-wise operations agree.
* Go `int` / `int64` are modelled as `Int`; `uint32` values as `Nat` with
  explicit `% 2 ^ 32` where Go's wrapping shift matters.
* Go `float64` rule weights and confidences are modelled as exact rationals
  `ℚ`; every comparison appearing in the theorems below has the same outcome
  under binary64 rounding and under exact rational arithmetic.
* `regexp.Compile` is abstracted as a `compile : Str → Option Matcher`
  parameter; `compileDefault` below gives the concrete semantics of the two
  regular expressions occurring in the hardcoded default rule set.
-/

/-- Go strings, modelled as lists of characters. -/
abbrev Str := List Char

/-- Turns a Lean string literal into the `Str` model. -/

def str (s : String) : Str := s.toList

/-- Splitting on a one-character separator, as Go `strings.Split` does:
`Split("", sep) = [""]`, separators at either end produce empty fields. -/

def splitOnChar (sep : Char) : Str → List Str
  | [] => [[]]
  | c :: rest =>
    match splitOnChar sep rest with
    | h :: t => if c = sep then [] :: h :: t else (c :: h) :: t
    | [] => if c = sep then [[], []] else [[c]]

/-- Go `strings.SplitN(s, sep, n)` for `n > 0` and a one-character separator:
at most `n` fields, the last field keeping the unsplit remainder. -/

def goSplitN (sep : Char) (n : Nat) (s : Str) : List Str :=
  let parts := splitOnChar sep s
  if parts.length ≤ n then parts
  else parts.take (n - 1) ++ [List.intercalate [sep] (parts.drop (n - 1))]

/-- Decimal value of a run of digit characters. -/

def digitsToNat (ds : Str) : Nat :=
  ds.foldl (fun a c => 10 * a + (c.toNat - 48)) 0

/-- Model of `fmt.Sscanf(s, "%d", &x)` where `x` is a freshly zeroed variable: Go
skips leading whitespace, accepts an optional sign and a maximal nonempty
digit run; on a scan error the variable keeps its zero value.  (Overflow of
the 64-bit `int` is not modelled; every value the theorems below touch is
compared against 0, 32 or 255 long before that range.) -/

def scanInt (s : Str) : Int :=
  let t := s.dropWhile fun c => c == ' ' || c == '\t' || c == '\n' || c == '\r'
  let sign : Bool := t.head? == some '-'
  let t' := if t.head? == some '-' || t.head? == some '+' then t.drop 1 else t
  let ds := t'.takeWhile Char.isDigit
  if ds.isEmpty then 0
  else if sign then -(digitsToNat ds : Int) else (digitsToNat ds : Int)

/-- One field of the dotted quad as the Go loop reads it: `fmt.Sscanf` with
`%d` into a zeroed `octet`, then the `octet < 0 || octet > 255` range check;
`none` models the loop body's early `return 0`. -/

def octetVal (p : Str) : Option Nat :=
  let octet := scanInt p
  if octet < 0 ∨ octet > 255 then none else some octet.toNat

/-- Model of `ipToUint32` from ip.go: split on "." into at most 4 fields, scan each
with `%d`, range-check, and accumulate `result<<8 | uint32(octet)` (for
octets below 256 the bitwise or is plain addition). -/

def ipToUint32 (ip : Str) : Nat :=
  match goSplitN '.' 4 ip with
  | [a, b, c, d] =>
    match octetVal a, octetVal b, octetVal c, octetVal d with
    | some x, some y, some z, some w => ((x * 256 + y) * 256 + z) * 256 + w
    | _, _, _, _ => 0
  | _ => 0

/-- Model of `cidrContains` from ip.go.  `uint32(0xFFFFFFFF) << (32 - bits)` wraps to
0 when the shift distance is 32, which the `% 2 ^ 32` reproduces. -/

def cidrContains (cidr ip : Str) : Bool :=
  match goSplitN '/' 2 cidr with
  | [addr, bitsStr] =>
    let cidrIP := ipToUint32 addr
    let targetIP := ipToUint32 ip
    if cidrIP = 0 ∨ targetIP = 0 then false
    else
      let bits := scanInt bitsStr
      if bits < 0 ∨ bits > 32 then false
      else
        let mask := (0xFFFFFFFF <<< (32 - bits.toNat)) % 2 ^ 32
        decide (cidrIP &&& mask = targetIP &&& mask)
  | _ => decide (cidr = ip)

/-- The top `n` bits of a 32-bit value, read as a number. -/

def topBits (n x : Nat) : Nat := x / 2 ^ (32 - n)

/-- Modelled from the spec's words ("parsed as 32-bit integers", "not a
parsable IPv4 dotted-quad"): a strict dotted-quad parser — exactly four
dot-separated fields, each a nonempty all-digit run valued at most 255. -/

def specOctet (p : Str) : Option Nat :=
  if p ≠ [] ∧ p.all Char.isDigit ∧ digitsToNat p ≤ 255 then some (digitsToNat p)
  else none

/-- Modelled from the spec's words: the 32-bit integer denoted by a strictly
parsable IPv4 dotted-quad, `none` when the string is not parsable. -/

def specParseIPv4 (s : Str) : Option Nat :=
  match splitOnChar '.' s with
  | [a, b, c, d] =>
    match specOctet a, specOctet b, specOctet c, specOctet d with
    | some x, some y, some z, some w => some (((x * 256 + y) * 256 + z) * 256 + w)
    | _, _, _, _ => none
  | _ => none

structure Window where
  count : Int
  resetAt : Int
deriving DecidableEq

/-- The rate limiter's mutable state: the window map plus its configuration
(part_001 lines 13–18).  The map is modelled as a function to `Option`. -/

structure RateLimiterState where
  windows : Str → Option Window
  maxRequests : Int
  windowMs : Int

/-- Go map assignment `windows[ip] = w`. -/

def mapUpdate (f : Str → Option Window) (k : Str) (v : Option Window) :
    Str → Option Window :=
  fun k' => if k' = k then v else f k'

/-- Model of `isExceeded` (part_001 lines 44–57), with the implicit clock passed as
`now`; returns the reported Bool and the successor state. -/

def isExceeded (rl : RateLimiterState) (now : Int) (ip : Str) :
    Bool × RateLimiterState :=
  match rl.windows ip with
  | none =>
    (false, { rl with windows := mapUpdate rl.windows ip (some ⟨1, now + rl.windowMs⟩) })
  | some w =>
    if now ≥ w.resetAt then
      (false, { rl with windows := mapUpdate rl.windows ip (some ⟨1, now + rl.windowMs⟩) })
    else
      (decide (w.count + 1 > rl.maxRequests),
        { rl with windows := mapUpdate rl.windows ip (some ⟨w.count + 1, w.resetAt⟩) })

/-- A sequence of `isExceeded` calls for one key at the given times. -/

def callsAt (rl : RateLimiterState) (ip : Str) : List Int → List Bool × RateLimiterState
  | [] => ([], rl)
  | t :: ts =>
    let p := isExceeded rl t ip
    let q := callsAt p.2 ip ts
    (p.1 :: q.1, q.2)

abbrev Matcher := Str → Bool

/-- HeaderPattern (part_001 lines 82–86); the float64 weight is modelled as
an exact rational. -/

structure HeaderPattern where
  name : Str
  pattern : Str
  weight : ℚ
deriving DecidableEq

/-- RuleSet (part_001 lines 90–97). -/

structure RuleSet where
  version : Nat
  updatedAt : Str
  blockedUAs : List Str
  blockedIPs : List Str
  headerPatterns : List HeaderPattern
  anomalyThreshold : ℚ
deriving DecidableEq

/-- The rule manager's guarded state: the active RuleSet plus its two
derived caches (part_001 lines 152–162). -/

structure RuleManagerState where
  current : RuleSet
  uaLower : List Str
  headerRe : List (Option Matcher)

/-- Go `strings.ToLower` (ASCII inputs). -/

def goToLower (s : Str) : Str := s.map Char.toLower

/-- Go `strings.Contains(s, sub)`. -/

def goContains (s sub : Str) : Bool := decide (sub <:+: s)

/-- Model of `applyRules` (part_001 lines 190–210): lower-case every UA pattern and
compile every header pattern, keeping `none` for a failed compilation; the
new RuleSet and both caches replace the previous state together. -/

def applyRules (compile : Str → Option Matcher) (rs : RuleSet) : RuleManagerState :=
  { current := rs
    uaLower := rs.blockedUAs.map goToLower
    headerRe := rs.headerPatterns.map fun hp => compile hp.pattern }

/-- Model of `isBlockedUA` (part_001 lines 244–254). -/

def isBlockedUA (rm : RuleManagerState) (ua : Str) : Bool :=
  rm.uaLower.any fun pattern => goContains (goToLower ua) pattern

/-- Model of `isBlockedIP` (part_001 lines 257–266). -/

def isBlockedIP (rm : RuleManagerState) (ip : Str) : Bool :=
  rm.current.blockedIPs.any fun cidr => cidrContains cidr ip

/-- The normalized header map (lower-cased name → joined value). -/

abbrev HeaderMap := List (Str × Str)

/-- Go map read `headers[name]` with its zero value "" for a missing key. -/

def goMapGet (h : HeaderMap) (name : Str) : Str :=
  match h.find? fun kv => kv.1 == name with
  | some kv => kv.2
  | none => []

/-- The loop of `headerAnomalyScore` (part_001 lines 269–284): walk the
patterns with their index into `headerRe`; `none` models the Go panic of an
out-of-range `headerRe[i]`, a `some none` entry (failed compilation) is
skipped. -/

def scoreAux (headerRe : List (Option Matcher)) (headers : HeaderMap) :
    List HeaderPattern → Nat → ℚ → Option ℚ
  | [], _, score => some score
  | hp :: rest, i, score =>
    match headerRe[i]? with
    | none => none
    | some none => scoreAux headerRe headers rest (i + 1) score
    | some (some re) =>
      if re (goMapGet headers hp.name) then
        scoreAux headerRe headers rest (i + 1) (score + hp.weight)
      else scoreAux headerRe headers rest (i + 1) score

/-- Model of `headerAnomalyScore` (part_001 lines 269–284). -/

def headerAnomalyScore (rm : RuleManagerState) (headers : HeaderMap) : Option ℚ :=
  scoreAux rm.headerRe headers rm.current.headerPatterns 0 0

/-- Model of `anomalyThreshold` (part_001 lines 286–290). -/

def anomalyThreshold (rm : RuleManagerState) : ℚ :=
  rm.current.anomalyThreshold

/-- The version gate of `syncOnce` (part_001 lines 233–240), applied to a
successfully fetched and decoded RuleSet; a failed fetch or decode returns
early in the source, leaving the state untouched. -/

def processFetched (compile : Str → Option Matcher) (rm : RuleManagerState)
    (rs : RuleSet) : RuleManagerState :=
  if rs.version > rm.current.version then applyRules compile rs else rm

/-- A sequence of sync rounds, each delivering one fetched RuleSet. -/

def syncAll (compile : Str → Option Matcher) (rm : RuleManagerState)
    (fetched : List RuleSet) : RuleManagerState :=
  fetched.foldl (processFetched compile) rm

/-- C5: a user agent is blocked iff some installed pattern, case-folded, is
a substring of the case-folded user agent. -/

structure Request where
  headers : List (Str × List Str)
  remoteAddr : Str
  path : Str
  method : Str

/-- Go `r.Header.Get(name)`: the first value stored under the (canonical)
key, "" when absent. -/

def goHeaderGet (h : List (Str × List Str)) (name : Str) : Str :=
  match h.find? fun kv => kv.1 == name with
  | some kv => kv.2.headD []
  | none => []

/-- Go `strings.Join(v, ", ")`. -/

def goJoinComma (vs : List Str) : Str :=
  List.intercalate (str ", ") vs

/-- Go `strings.TrimSpace` (ASCII whitespace). -/

def goTrimSpace (s : Str) : Str :=
  ((s.dropWhile isSpaceChar).reverse.dropWhile isSpaceChar).reverse
where
  isSpaceChar (c : Char) : Bool := c == ' ' || c == '\t' || c == '\n' || c == '\r'

/-- Whether "]:" occurs at index `i` of `s`. -/

def bracketColonAt (s : Str) (i : Nat) : Bool :=
  match s.drop i with
  | ']' :: ':' :: _ => true
  | _ => false

/-- Go `strings.LastIndex(addr, "]:")`. -/

def lastIndexBracketColon (s : Str) : Option Nat :=
  (List.range s.length).foldl
    (fun acc i => if bracketColonAt s i then some i else acc) none

/-- Model of `stripPort` from ip.go: `addr[1:idx]` for a "]:"-style IPv6 address,
else cut at the colon when there is exactly one. -/

def stripPort (addr : Str) : Str :=
  match lastIndexBracketColon addr with
  | some idx => (addr.drop 1).take (idx - 1)
  | none =>
    if addr.count ':' = 1 then addr.takeWhile (fun c => c != ':')
    else addr

/-- Model of `extractIP` from ip.go: X-Forwarded-For (first comma-separated entry),
then X-Real-IP, then RemoteAddr, always port-stripped. -/

def extractIP (r : Request) : Str :=
  let xff := goHeaderGet r.headers (str "X-Forwarded-For")
  if xff ≠ [] then
    stripPort (goTrimSpace (xff.takeWhile fun c => c != ','))
  else
    let xri := goHeaderGet r.headers (str "X-Real-IP")
    if xri ≠ [] then stripPort (goTrimSpace xri)
    else stripPort r.remoteAddr

/-- Model of `normalizeHeaders` from engine.go: lower-cased name → joined values.
Go's map iteration order is arbitrary; the request's list order stands for
it (no theorem below depends on that order). -/

def normalizeHeaders (r : Request) : HeaderMap :=
  r.headers.map fun kv => (goToLower kv.1, goJoinComma kv.2)

/-- Decision (engine.go lines 9–13); the float64 confidence is modelled as
an exact rational. -/

structure Decision where
  action : String
  reason : String
  confidence : ℚ
deriving DecidableEq

/-- Model of `Analyze` (engine.go lines 16–44): the five ordered short-circuiting
checks.  The rule-manager and rate-limiter states and the clock are explicit;
the result's first component is `none` exactly when the Go code would panic
(impossible for `applyRules`-built states, see C10), and the second component
is the successor rate-limiter state. -/

def Analyze (rules : RuleManagerState) (limiter : RateLimiterState) (now : Int)
    (r : Request) : Option Decision × RateLimiterState :=
  let ip := extractIP r
  let ua := goHeaderGet r.headers (str "User-Agent")
  let headers := normalizeHeaders r
  if isBlockedUA rules ua then
    (some ⟨"block", "known_bot_ua", 19/20⟩, limiter)
  else if isBlockedIP rules ip then
    (some ⟨"block", "known_bot_ip", 9/10⟩, limiter)
  else
    let p := isExceeded limiter now ip
    if p.1 then
      (some ⟨"block", "rate_limit", 7/10⟩, p.2)
    else
      match headerAnomalyScore rules headers with
      | none => (none, p.2)
      | some score =>
        if score > anomalyThreshold rules then
          (some ⟨"block", "header_anomaly", score⟩, p.2)
        else
          (some ⟨"allow", "", 0⟩, p.2)

/-- Model of `defaultRules` (part_001 lines 99–150), transliterated. -/

def defaultRules : RuleSet :=
  { version := 1
    updatedAt := str "2026-02-06"
    blockedUAs :=
      [ str "GPTBot", str "ChatGPT-User", str "OAI-SearchBot"
      , str "CCBot"
      , str "anthropic-ai", str "ClaudeBot", str "Claude-Web"
      , str "Meta-ExternalAgent", str "Meta-ExternalFetcher", str "FacebookBot"
      , str "facebookexternalhit"
      , str "PerplexityBot"
      , str "Bytespider"
      , str "Google-Extended"
      , str "Applebot-Extended"
      , str "cohere-ai"
      , str "Diffbot"
      , str "ImagesiftBot"
      , str "Omgilibot"
      , str "Omgili"
      , str "YouBot"
      , str "Amazonbot"
      , str "AI2Bot", str "Ai2Bot-Dolma"
      , str "Scrapy"
      , str "PetalBot"
      , str "Semrushbot"
      , str "AhrefsBot"
      , str "MJ12bot"
      , str "DotBot"
      , str "Seekport"
      , str "BLEXBot"
      , str "DataForSeoBot"
      , str "magpie-crawler"
      , str "Timpibot"
      , str "Velenpublicwebcrawler"
      , str "Webzio-Extended"
      , str "iaskspider"
      , str "Kangaroo Bot"
      , str "img2dataset" ]
    blockedIPs :=
      [ str "20.15.240.0/20"
      , str "20.171.206.0/23"
      , str "40.83.2.0/23"
      , str "52.230.152.0/21"
      , str "20.171.207.0/24" ]
    headerPatterns :=
      [ ⟨str "accept", str "^\\*\\/\\*$", 3/10⟩
      , ⟨str "accept-language", str "^$", 5/10⟩
      , ⟨str "accept-encoding", str "^$", 4/10⟩ ]
    anomalyThreshold := 7/10 }

/-- The semantics Go's `regexp` gives the two patterns appearing in
`defaultRules`: `^\*\/\*$` matches exactly the text "*/*" and `^$` exactly
the empty text (`^`/`$` anchor to the whole text without `(?m)`).  Patterns
outside `defaultRules` are not needed by any theorem in this file; theorems
about arbitrary rule sets stay parametric in `compile`. -/

def compileDefault (pat : Str) : Option Matcher :=
  if pat = str "^\\*\\/\\*$" then some fun s => decide (s = str "*/*")
  else if pat = str "^$" then some fun s => decide (s = [])
  else none

def reqAnomalous : Request :=
  { headers := [(str "Accept", [str "*/*"])]
  , remoteAddr := str "9.9.9.9:12345"
  , path := str "/"
  , method := str "GET" }

structure Fingerprint where
  ip : Str
  userAgent : Str
  headerOrder : List Str
  headers : HeaderMap
  path : Str
  method : Str
  ts : Int
deriving DecidableEq

/-- The telemetry client's guarded state (part_000 lines 27–34). -/

structure TelemetryState where
  buffer : List Fingerprint
  maxBuffer : Nat
  enabled : Bool
deriving DecidableEq

/-- Model of `push` (part_000 lines 64–76): append under the lock; the returned Bool
is `shouldFlush`, the trigger for the detached flush goroutine. -/

def push (tc : TelemetryState) (fp : Fingerprint) : TelemetryState × Bool :=
  if !tc.enabled then (tc, false)
  else
    let buf := tc.buffer ++ [fp]
    ({ tc with buffer := buf }, decide (buf.length ≥ tc.maxBuffer))

/-- Model of `flush` (part_000 lines 78–105): swap the buffer for an empty one and
send it as one batch; an empty buffer sends nothing.  The returned batch is
the body of the outbound POST (serialization of these values cannot fail;
transport failures drop the batch after it leaves the buffer either way). -/

def flush (tc : TelemetryState) : TelemetryState × Option (List Fingerprint) :=
  if tc.buffer = [] then (tc, none)
  else ({ tc with buffer := [] }, some tc.buffer)

/-- One push together with the flush it triggers, in the interleaving where
the spawned goroutine's flush completes before the next operation; returns
the batches sent. -/

def pushStep (tc : TelemetryState) (fp : Fingerprint) :
    TelemetryState × List (List Fingerprint) :=
  let p := push tc fp
  if p.2 then
    let q := flush p.1
    match q.2 with
    | some batch => (q.1, [batch])
    | none => (q.1, [])
  else (p.1, [])

/-- A sequence of pushes (each with its triggered flush, if any). -/

def runPushes (tc : TelemetryState) : List Fingerprint →
    TelemetryState × List (List Fingerprint)
  | [] => (tc, [])
  | fp :: fps =>
    let p := pushStep tc fp
    let q := runPushes p.1 fps
    (q.1, p.2 ++ q.2)

def fpNull : Fingerprint := ⟨[], [], [], [], [], [], 0⟩

def sortStrings (l : List Str) : List Str :=
  List.insertionSort (fun a b => a ≤ b) l

/-- Model of `buildFingerprint` (part_000 lines 108–127): collect the lower-cased
header names (the request's list order standing for Go's arbitrary map
iteration order), sort them, and pair them with the lower-cased
name → joined-value map.  The implicit clock is passed as `now`. -/

def buildFingerprint (r : Request) (now : Int) : Fingerprint :=
  { ip := extractIP r
    userAgent := goHeaderGet r.headers (str "User-Agent")
    headerOrder := sortStrings (r.headers.map fun kv => goToLower kv.1)
    headers := r.headers.map fun kv => (goToLower kv.1, goJoinComma kv.2)
    path := r.path
    method := r.method
    ts := now }

/-- C8 (amended): headerOrder is the lower-cased header names rearranged
into ascending lexicographic order — a sorted permutation of the raw names'
lower-casings, not the order the headers appear in the raw request. -/

def reqTwoHeaders : Request :=
  { headers := [(str "Zebra", [str "1"]), (str "Alpha", [str "2"])]
  , remoteAddr := str "1.1.1.1:80"
  , path := str "/"
  , method := str "GET" }

/-- C8 is false as stated: the raw request lists Zebra before Alpha, but
buildFingerprint sorts headerOrder, producing [alpha, zebra] rather than the
request order [zebra, alpha]. -/

theorem octetVal_le {p : Str} {v : Nat} (h : octetVal p = some v) : v ≤ 255 := by
  unfold octetVal at h
  by_cases hc : scanInt p < 0 ∨ scanInt p > 255
  · simp [hc] at h
  · simp only [hc, if_false, Option.some.injEq] at h
    push_neg at hc
    omega

theorem ipToUint32_lt (ip : Str) : ipToUint32 ip < 2 ^ 32 := by
  unfold ipToUint32
  split
  · rename_i a b c d heq
    rcases ha : octetVal a with _ | x <;> rcases hb : octetVal b with _ | y <;>
      rcases hc : octetVal c with _ | z <;> rcases hd : octetVal d with _ | w <;>
      simp only [ha, hb, hc, hd] <;> first
        | (have h1 := octetVal_le ha; have h2 := octetVal_le hb;
           have h3 := octetVal_le hc; have h4 := octetVal_le hd; omega)
        | norm_num
  · norm_num

theorem maskVal (k : Nat) (hk : k ≤ 32) :
    (0xFFFFFFFF <<< k) % 2 ^ 32 = 2 ^ 32 - 2 ^ k := by
  rw [Nat.shiftLeft_eq]
  have h1 : (0xFFFFFFFF : Nat) = 2 ^ 32 - 1 := by norm_num
  have h2 : 2 ^ k ≤ 2 ^ 32 := Nat.pow_le_pow_right (by norm_num) hk
  have h3 : 1 ≤ 2 ^ k := Nat.one_le_two_pow
  have key : (2 ^ 32 - 1) * 2 ^ k = 2 ^ 32 * (2 ^ k - 1) + (2 ^ 32 - 2 ^ k) := by
    have e1 : (2 ^ 32 - 1) * 2 ^ k = 2 ^ 32 * 2 ^ k - 2 ^ k := by
      rw [Nat.sub_mul, one_mul]
    have e2 : 2 ^ 32 * (2 ^ k - 1) = 2 ^ 32 * 2 ^ k - 2 ^ 32 := by
      rw [Nat.mul_sub, mul_one]
    have h4 : 2 ^ 32 ≤ 2 ^ 32 * 2 ^ k := Nat.le_mul_of_pos_right _ (by omega)
    omega
  rw [h1, key, Nat.mul_add_mod]
  exact Nat.mod_eq_of_lt (by omega)

theorem and_highMask (K k x : Nat) (hk : k ≤ K) (hx : x < 2 ^ K) :
    x &&& (2 ^ K - 2 ^ k) = x / 2 ^ k * 2 ^ k := by
  have hmask : 2 ^ K - 2 ^ k = (2 ^ (K - k) - 1) <<< k := by
    rw [Nat.shiftLeft_eq, Nat.sub_mul, one_mul, ← Nat.pow_add, Nat.sub_add_cancel hk]
  have hdm : x / 2 ^ k * 2 ^ k = (x >>> k) <<< k := by
    rw [Nat.shiftLeft_eq, Nat.shiftRight_eq_div_pow]
  rw [hmask, hdm]
  apply Nat.eq_of_testBit_eq
  intro i
  rw [Nat.testBit_and, Nat.testBit_shiftLeft, Nat.testBit_shiftLeft,
    Nat.testBit_shiftRight, Nat.testBit_two_pow_sub_one]
  by_cases hik : k ≤ i
  · have hki : k + (i - k) = i := by omega
    rw [hki]
    by_cases hiK : i < K
    · have hkK : i - k < K - k := by omega
      simp [ge_iff_le, hik, hkK]
    · have hxi : x.testBit i = false :=
        Nat.testBit_lt_two_pow
          (lt_of_lt_of_le hx (Nat.pow_le_pow_right (by norm_num) (by omega)))
      simp [ge_iff_le, hik, hxi]
  · simp [ge_iff_le, hik]

theorem masked_eq_iff (k x y : Nat) (hk : k ≤ 32) (hx : x < 2 ^ 32) (hy : y < 2 ^ 32) :
    (x &&& (0xFFFFFFFF <<< k) % 2 ^ 32 = y &&& (0xFFFFFFFF <<< k) % 2 ^ 32) ↔
      x / 2 ^ k = y / 2 ^ k := by
  rw [maskVal k hk, and_highMask 32 k x hk hx, and_highMask 32 k y hk hy]
  constructor
  · intro h
    exact Nat.eq_of_mul_eq_mul_right (Nat.pos_pow_of_pos k (by norm_num)) h
  · intro h
    rw [h]

/-- C1 (amended): for a CIDR string splitting into a base address and a
prefix field that scans to `n ∈ [0,32]`, `cidrContains` is true iff both
operands read, under the code's lenient `Sscanf`-based parser, as nonzero
32-bit values whose top `n` bits agree.  An operand whose lenient parse is 0
(including the strictly parsable address 0.0.0.0) never matches, and a
strictly unparsable operand can still match through its lenient parse. -/

theorem cidrContains_characterization (c addr bitsStr ip : Str) (n : Nat)
    (hsplit : goSplitN '/' 2 c = [addr, bitsStr])
    (hbits : scanInt bitsStr = (n : Int)) (hn : n ≤ 32) :
    cidrContains c ip = true ↔
      (ipToUint32 addr ≠ 0 ∧ ipToUint32 ip ≠ 0 ∧
        topBits n (ipToUint32 addr) = topBits n (ipToUint32 ip)) := by
  unfold cidrContains
  rw [hsplit]
  simp only []
  by_cases h0 : ipToUint32 addr = 0 ∨ ipToUint32 ip = 0
  · simp only [h0, if_true]
    constructor
    · intro h
      exact absurd h (by simp)
    · intro h
      rcases h0 with h0 | h0
      · exact absurd h0 h.1
      · exact absurd h0 h.2.1
  · rw [if_neg h0, hbits]
    have hrange : ¬((n : Int) < 0 ∨ (n : Int) > 32) := by omega
    rw [if_neg hrange]
    push_neg at h0
    have htn : ((n : Int)).toNat = n := Int.toNat_natCast n
    rw [htn, decide_eq_true_eq]
    rw [masked_eq_iff (32 - n) _ _ (by omega) (ipToUint32_lt addr) (ipToUint32_lt ip)]
    unfold topBits
    constructor
    · intro h
      exact ⟨h0.1, h0.2, h⟩
    · intro h
      exact h.2.2

theorem cidrContains_characterization_witness :
    cidrContains (str "10.0.0.0/8") (str "10.1.2.3") = true ↔
      (ipToUint32 (str "10.0.0.0") ≠ 0 ∧ ipToUint32 (str "10.1.2.3") ≠ 0 ∧
        topBits 8 (ipToUint32 (str "10.0.0.0")) = topBits 8 (ipToUint32 (str "10.1.2.3"))) :=
  cidrContains_characterization (str "10.0.0.0/8") (str "10.0.0.0") (str "8")
    (str "10.1.2.3") 8 (by decide) (by decide) (by decide)

/-- C1 is false as stated: "0.0.0.0" and "1.2.3.4" are both strictly
parsable IPv4 dotted-quads and the top 0 bits trivially agree, yet
`cidrContains "0.0.0.0/0" "1.2.3.4"` is false — the code treats the zero
address as unparsable. -/

theorem cidrContains_zeroAddr_counterexample :
    cidrContains (str "0.0.0.0/0") (str "1.2.3.4") = false ∧
    specParseIPv4 (str "0.0.0.0") = some 0 ∧
    specParseIPv4 (str "1.2.3.4") = some 16909060 ∧
    topBits 0 0 = topBits 0 16909060 := by decide

/-- C3 failing input: the malformed entry "10.0.0.0/x" (non-numeric prefix
length) matches the unrelated client IP "9.9.9.9".  The `fmt.Sscanf` error
is ignored, `bits` keeps its zero value, the mask becomes empty, and the
entry matches every leniently-parsable address instead of never matching. -/

theorem cidrContains_badPrefix_matches :
    cidrContains (str "10.0.0.0/x") (str "9.9.9.9") = true := by decide

/-- A per-key counting window (part_001 lines 8–11): `count` and `resetAt`
in unix milliseconds, both Go integer types modelled as `Int`. -/

theorem mapUpdate_same (f : Str → Option Window) (k : Str) (v : Option Window) :
    mapUpdate f k v k = v := by
  simp [mapUpdate]

theorem isExceeded_inWindow (rl : RateLimiterState) (now : Int) (ip : Str)
    (c R : Int) (hw : rl.windows ip = some ⟨c, R⟩) (hnow : now < R) :
    isExceeded rl now ip =
      (decide (c + 1 > rl.maxRequests),
        { rl with windows := mapUpdate rl.windows ip (some ⟨c + 1, R⟩) }) := by
  unfold isExceeded
  simp only [hw]
  rw [if_neg (by omega)]

theorem callsAt_inWindow (ip : Str) (R : Int) :
    ∀ (ts : List Int) (rl : RateLimiterState) (c : Int),
      rl.windows ip = some ⟨c, R⟩ → (∀ t ∈ ts, t < R) →
      (∀ i, i < ts.length →
        (callsAt rl ip ts).1[i]? = some (decide (c + 1 + i > rl.maxRequests))) ∧
      ((callsAt rl ip ts).2).windows ip = some ⟨c + ts.length, R⟩ ∧
      (callsAt rl ip ts).2.maxRequests = rl.maxRequests ∧
      (callsAt rl ip ts).2.windowMs = rl.windowMs := by
  intro ts
  induction ts with
  | nil =>
    intro rl c hw hts
    refine ⟨fun i hi => absurd hi (by simp), by simpa using hw, rfl, rfl⟩
  | cons t ts ih =>
    intro rl c hw hts
    have ht : t < R := hts t (by simp)
    have hstep := isExceeded_inWindow rl t ip c R hw ht
    have hw' : ((isExceeded rl t ip).2).windows ip = some ⟨c + 1, R⟩ := by
      rw [hstep]
      exact mapUpdate_same _ _ _
    have hmax : (isExceeded rl t ip).2.maxRequests = rl.maxRequests := by
      rw [hstep]
    have hwin : (isExceeded rl t ip).2.windowMs = rl.windowMs := by
      rw [hstep]
    have hrest := ih (isExceeded rl t ip).2 (c + 1) hw' (fun t' ht' => hts t' (by simp [ht']))
    refine ⟨?_, ?_, ?_, ?_⟩
    · intro i hi
      match i with
      | 0 =>
        show ((isExceeded rl t ip).1 :: _)[0]? = _
        rw [hstep]
        simp
      | Nat.succ j =>
        have hj : j < ts.length := by simpa using hi
        have := hrest.1 j hj
        show ((isExceeded rl t ip).1 :: (callsAt (isExceeded rl t ip).2 ip ts).1)[j + 1]? = _
        rw [List.getElem?_cons_succ, this, hmax]
        congr 1
        rw [decide_eq_decide]
        push_cast
        omega
    · show ((callsAt (isExceeded rl t ip).2 ip ts).2).windows ip = _
      rw [hrest.2.1]
      congr 2
      simp only [List.length_cons]
      push_cast
      omega
    · show (callsAt (isExceeded rl t ip).2 ip ts).2.maxRequests = _
      rw [hrest.2.2.1, hmax]
    · show (callsAt (isExceeded rl t ip).2 ip ts).2.windowMs = _
      rw [hrest.2.2.2, hwin]

/-- C2: starting with no window for key `ip`, a call at `t0` followed by
`maxRequests = m ≥ 1` further calls before `t0 + windowMs` reports false for
the first `m` calls (indices `0..m-1`) and true for the `(m+1)`-th (index
`m`); and any call finding `now ≥ resetAt` reports false and restarts the
window with count 1 and `resetAt = now + windowMs`. -/

theorem rateLimiter_fixedWindow (rl : RateLimiterState) (ip : Str) (m : Nat)
    (hm : 1 ≤ m) (hmax : rl.maxRequests = (m : Int))
    (hw : rl.windows ip = none)
    (t0 : Int) (ts : List Int) (hlen : ts.length = m)
    (hts : ∀ t ∈ ts, t < t0 + rl.windowMs) :
    (∀ i, i < m → (callsAt rl ip (t0 :: ts)).1[i]? = some false) ∧
    (callsAt rl ip (t0 :: ts)).1[m]? = some true ∧
    (∀ (rl' : RateLimiterState) (now : Int) (w : Window),
      rl'.windows ip = some w → now ≥ w.resetAt →
      (isExceeded rl' now ip).1 = false ∧
      ((isExceeded rl' now ip).2).windows ip = some ⟨1, now + rl'.windowMs⟩) := by
  have hfirst : isExceeded rl t0 ip =
      (false, { rl with windows := mapUpdate rl.windows ip (some ⟨1, t0 + rl.windowMs⟩) }) := by
    unfold isExceeded
    rw [hw]
  have hw1 : ((isExceeded rl t0 ip).2).windows ip = some ⟨1, t0 + rl.windowMs⟩ := by
    rw [hfirst]
    exact mapUpdate_same _ _ _
  have hmax1 : (isExceeded rl t0 ip).2.maxRequests = rl.maxRequests := by
    rw [hfirst]
  have hrest := callsAt_inWindow ip (t0 + rl.windowMs) ts (isExceeded rl t0 ip).2 1 hw1
    (by
      intro t ht
      have := hts t ht
      have : (isExceeded rl t0 ip).2.windowMs = rl.windowMs := by rw [hfirst]
      omega)
  refine ⟨?_, ?_, ?_⟩
  · intro i hi
    match i with
    | 0 =>
      show ((isExceeded rl t0 ip).1 :: _)[0]? = _
      rw [hfirst]
      simp
    | Nat.succ j =>
      have hj : j < ts.length := by omega
      have := hrest.1 j hj
      show ((isExceeded rl t0 ip).1 :: (callsAt (isExceeded rl t0 ip).2 ip ts).1)[j + 1]? = _
      rw [List.getElem?_cons_succ, this, hmax1, hmax]
      congr 1
      simp only [decide_eq_false_iff_not]
      push_cast
      omega
  · have hj : m - 1 < ts.length := by omega
    have := hrest.1 (m - 1) hj
    show ((isExceeded rl t0 ip).1 :: (callsAt (isExceeded rl t0 ip).2 ip ts).1)[m]? = _
    have hm1 : m = (m - 1) + 1 := by omega
    rw [hm1, List.getElem?_cons_succ, this, hmax1, hmax]
    congr 1
    simp only [decide_eq_true_eq]
    push_cast
    omega
  · intro rl' now w hw' hnow
    unfold isExceeded
    simp only [hw']
    rw [if_pos hnow]
    exact ⟨rfl, mapUpdate_same _ _ _⟩

theorem rateLimiter_fixedWindow_witness :
    (callsAt ⟨fun _ => none, 2, 100⟩ (str "k") [0, 10, 20]).1[0]? = some false ∧
    (callsAt ⟨fun _ => none, 2, 100⟩ (str "k") [0, 10, 20]).1[1]? = some false ∧
    (callsAt ⟨fun _ => none, 2, 100⟩ (str "k") [0, 10, 20]).1[2]? = some true ∧
    (isExceeded ⟨fun k' => if k' = str "k" then some ⟨5, 50⟩ else none, 2, 100⟩
      50 (str "k")).1 = false ∧
    ((isExceeded ⟨fun k' => if k' = str "k" then some ⟨5, 50⟩ else none, 2, 100⟩
      50 (str "k")).2).windows (str "k") = some ⟨1, 50 + 100⟩ := by
  have h := rateLimiter_fixedWindow ⟨fun _ => none, 2, 100⟩ (str "k") 2 (by decide)
    rfl rfl 0 [10, 20] rfl (by decide)
  have hreset := h.2.2 ⟨fun k' => if k' = str "k" then some ⟨5, 50⟩ else none, 2, 100⟩
    50 ⟨5, 50⟩ (by simp) (by decide)
  exact ⟨h.1 0 (by decide), h.1 1 (by decide), h.2.1, hreset.1, hreset.2⟩

/-- A compiled header regex, abstracted to its matching function
(`regexp.MatchString`). -/

theorem isBlockedUA_iff (compile : Str → Option Matcher) (rs : RuleSet) (ua : Str) :
    isBlockedUA (applyRules compile rs) ua = true ↔
      ∃ p ∈ rs.blockedUAs, goToLower p <:+: goToLower ua := by
  simp only [isBlockedUA, applyRules, List.any_eq_true, List.mem_map, goContains,
    decide_eq_true_eq]
  constructor
  · rintro ⟨q, ⟨p, hp, rfl⟩, hinf⟩
    exact ⟨p, hp, hinf⟩
  · rintro ⟨p, hp, hinf⟩
    exact ⟨goToLower p, ⟨p, hp, rfl⟩, hinf⟩

/-- C6: a fetched RuleSet with a version at most the active one leaves the
state (RuleSet and derived caches) unchanged, a strictly greater version
installs it via applyRules, and over any sequence of sync rounds the active
version never decreases. -/

theorem ruleVersion_gate (compile : Str → Option Matcher) (rm : RuleManagerState)
    (rs : RuleSet) :
    (rs.version ≤ rm.current.version → processFetched compile rm rs = rm) ∧
    (rm.current.version < rs.version →
      processFetched compile rm rs = applyRules compile rs) ∧
    (∀ fetched : List RuleSet,
      rm.current.version ≤ (syncAll compile rm fetched).current.version) := by
  refine ⟨?_, ?_, ?_⟩
  · intro h
    unfold processFetched
    rw [if_neg (by omega)]
  · intro h
    unfold processFetched
    rw [if_pos h]
  · intro fetched
    induction fetched generalizing rm with
    | nil => simp [syncAll]
    | cons a as ih =>
      have step : rm.current.version ≤ (processFetched compile rm a).current.version := by
        unfold processFetched
        split
        · rename_i hgt
          simp only [applyRules]
          omega
        · exact le_refl _
      calc rm.current.version ≤ (processFetched compile rm a).current.version := step
        _ ≤ (syncAll compile (processFetched compile rm a) as).current.version := ih _
        _ = (syncAll compile rm (a :: as)).current.version := rfl

theorem ruleVersion_gate_witness :
    processFetched (fun _ => none) (applyRules (fun _ => none) ⟨3, [], [], [], [], 0⟩)
        ⟨3, [], [str "new"], [], [], 0⟩ =
      applyRules (fun _ => none) ⟨3, [], [], [], [], 0⟩ ∧
    processFetched (fun _ => none) (applyRules (fun _ => none) ⟨3, [], [], [], [], 0⟩)
        ⟨4, [], [str "new"], [], [], 0⟩ =
      applyRules (fun _ => none) ⟨4, [], [str "new"], [], [], 0⟩ ∧
    (applyRules (fun _ => none) ⟨3, [], [], [], [], 0⟩).current.version ≤
      (syncAll (fun _ => none) (applyRules (fun _ => none) ⟨3, [], [], [], [], 0⟩)
        [⟨2, [], [], [], [], 0⟩, ⟨7, [], [], [], [], 0⟩]).current.version := by
  have h1 := ruleVersion_gate (fun _ => none)
    (applyRules (fun _ => none) ⟨3, [], [], [], [], 0⟩) ⟨3, [], [str "new"], [], [], 0⟩
  have h2 := ruleVersion_gate (fun _ => none)
    (applyRules (fun _ => none) ⟨3, [], [], [], [], 0⟩) ⟨4, [], [str "new"], [], [], 0⟩
  exact ⟨h1.1 (by decide), h2.2.1 (by decide),
    h1.2.2 [⟨2, [], [], [], [], 0⟩, ⟨7, [], [], [], [], 0⟩]⟩

/-- A raw HTTP request as the middleware sees it: the header map (canonical
names with their value lists, in an arbitrary iteration order that the list
order stands for), the transport peer address, path and method. -/

theorem scoreAux_parallel (compile : Str → Option Matcher) (headers : HeaderMap) :
    ∀ (ps : List HeaderPattern) (pre : List (Option Matcher)) (acc : ℚ),
      scoreAux (pre ++ ps.map fun hp => compile hp.pattern) headers ps pre.length acc =
        some (acc + (ps.map fun hp =>
          match compile hp.pattern with
          | none => 0
          | some re => if re (goMapGet headers hp.name) then hp.weight else 0).sum) := by
  intro ps
  induction ps with
  | nil =>
    intro pre acc
    simp [scoreAux]
  | cons hp rest ih =>
    intro pre acc
    have hidx : (pre ++ (hp :: rest).map fun q => compile q.pattern)[pre.length]? =
        some (compile hp.pattern) := by
      rw [List.getElem?_append_right (le_refl pre.length)]
      simp
    unfold scoreAux
    rw [hidx]
    cases hc : compile hp.pattern with
    | none =>
      simp only [hc]
      have harr : pre ++ (hp :: rest).map (fun q => compile q.pattern) =
          (pre ++ [(none : Option Matcher)]) ++ rest.map fun q => compile q.pattern := by
        simp [hc]
      have hlen : pre.length + 1 = (pre ++ [(none : Option Matcher)]).length := by simp
      rw [harr, hlen, ih]
      simp [hc]
    | some re =>
      simp only [hc]
      have harr : pre ++ (hp :: rest).map (fun q => compile q.pattern) =
          (pre ++ [some re]) ++ rest.map fun q => compile q.pattern := by
        simp [hc]
      have hlen : pre.length + 1 = (pre ++ [some re]).length := by simp
      by_cases hre : re (goMapGet headers hp.name)
      · rw [if_pos hre, harr, hlen, ih]
        simp [hc, hre, add_assoc]
      · rw [if_neg hre, harr, hlen, ih]
        simp [hc, hre]

/-- C10: after applyRules the derived caches are parallel to the installed
RuleSet — one lower-cased entry per blocked UA, one (possibly `none`)
compiled entry per header pattern — so `headerRe[i]` in headerAnomalyScore is
always in bounds (the score is `some _`, never the panic `none`) and a
pattern that failed to compile contributes exactly 0 to the score. -/

theorem applyRules_parallel (compile : Str → Option Matcher) (rs : RuleSet)
    (headers : HeaderMap) :
    (applyRules compile rs).uaLower.length = rs.blockedUAs.length ∧
    (applyRules compile rs).uaLower = rs.blockedUAs.map goToLower ∧
    (applyRules compile rs).headerRe.length = rs.headerPatterns.length ∧
    (∀ (i : Nat) (hp : HeaderPattern), rs.headerPatterns[i]? = some hp →
      (applyRules compile rs).headerRe[i]? = some (compile hp.pattern)) ∧
    headerAnomalyScore (applyRules compile rs) headers =
      some ((rs.headerPatterns.map fun hp =>
        match compile hp.pattern with
        | none => 0
        | some re => if re (goMapGet headers hp.name) then hp.weight else 0).sum) := by
  refine ⟨by simp [applyRules], rfl, by simp [applyRules], ?_, ?_⟩
  · intro i hp h
    simp [applyRules, List.getElem?_map, h]
  · have h := scoreAux_parallel compile headers rs.headerPatterns [] 0
    simpa [headerAnomalyScore, applyRules] using h

theorem applyRules_parallel_witness :
    (applyRules compileDefault defaultRules).uaLower.length =
      defaultRules.blockedUAs.length ∧
    (applyRules compileDefault defaultRules).headerRe.length = 3 ∧
    (applyRules compileDefault defaultRules).headerRe[1]? =
      some (compileDefault (str "^$")) ∧
    headerAnomalyScore (applyRules compileDefault defaultRules) [] =
      some ((defaultRules.headerPatterns.map fun hp =>
        match compileDefault hp.pattern with
        | none => 0
        | some re => if re (goMapGet [] hp.name) then hp.weight else 0).sum) := by
  have h := applyRules_parallel compileDefault defaultRules []
  refine ⟨h.1, ?_, ?_, h.2.2.2.2⟩
  · rw [h.2.2.1]
    rfl
  · exact h.2.2.2.1 1 ⟨str "accept-language", str "^$", 5/10⟩ rfl

/-- C9: an empty string among the blocked UA patterns case-folds to the
empty string, which is a substring of everything, so isBlockedUA accepts
every user agent and Analyze blocks every request with reason known_bot_ua
and confidence 0.95. -/

theorem emptyPattern_blocksAll (compile : Str → Option Matcher) (rs : RuleSet)
    (h : ([] : Str) ∈ rs.blockedUAs) :
    (∀ ua : Str, isBlockedUA (applyRules compile rs) ua = true) ∧
    (∀ (limiter : RateLimiterState) (now : Int) (r : Request),
      (Analyze (applyRules compile rs) limiter now r).1 =
        some ⟨"block", "known_bot_ua", 19/20⟩) := by
  have hua : ∀ ua : Str, isBlockedUA (applyRules compile rs) ua = true := by
    intro ua
    simp only [isBlockedUA, applyRules, List.any_eq_true, List.mem_map, goContains,
      decide_eq_true_eq]
    exact ⟨goToLower [], ⟨[], h, rfl⟩, List.nil_infix⟩
  refine ⟨hua, fun limiter now r => ?_⟩
  simp [Analyze, hua]

theorem emptyPattern_blocksAll_witness :
    isBlockedUA (applyRules compileDefault ⟨2, [], [[]], [], [], 0⟩)
      (str "Mozilla/5.0") = true ∧
    (Analyze (applyRules compileDefault ⟨2, [], [[]], [], [], 0⟩)
      ⟨fun _ => none, 60, 60000⟩ 0
      ⟨[(str "User-Agent", [str "Mozilla/5.0"])], str "1.2.3.4:80", str "/",
        str "GET"⟩).1 = some ⟨"block", "known_bot_ua", 19/20⟩ := by
  have h := emptyPattern_blocksAll compileDefault ⟨2, [], [[]], [], [], 0⟩ (by simp)
  exact ⟨h.1 (str "Mozilla/5.0"), h.2 _ 0 _⟩

/-- The request used for claim C4's concrete inputs: Accept */*, no
Accept-Language or Accept-Encoding, no User-Agent, an unlisted IP. -/

theorem analyze_reqAnomalous_eval :
    (Analyze (applyRules compileDefault defaultRules) ⟨fun _ => none, 60, 60000⟩ 0
      reqAnomalous).1 = some ⟨"block", "header_anomaly", 6/5⟩ := by
  have hua : isBlockedUA (applyRules compileDefault defaultRules)
      (goHeaderGet reqAnomalous.headers (str "User-Agent")) = false := by decide
  have hip : isBlockedIP (applyRules compileDefault defaultRules)
      (extractIP reqAnomalous) = false := by decide
  have hex : (isExceeded (⟨fun _ => none, 60, 60000⟩ : RateLimiterState) 0
      (extractIP reqAnomalous)).1 = false := by decide
  have hscore : headerAnomalyScore (applyRules compileDefault defaultRules)
      (normalizeHeaders reqAnomalous) =
      some (0 + (defaultRules.headerPatterns.map fun hp =>
        match compileDefault hp.pattern with
        | none => 0
        | some re =>
          if re (goMapGet (normalizeHeaders reqAnomalous) hp.name) then hp.weight
          else 0).sum) :=
    scoreAux_parallel compileDefault (normalizeHeaders reqAnomalous)
      defaultRules.headerPatterns [] 0
  have hmap : (defaultRules.headerPatterns.map fun hp =>
      match compileDefault hp.pattern with
      | none => 0
      | some re =>
        if re (goMapGet (normalizeHeaders reqAnomalous) hp.name) then hp.weight
        else 0) = [3/10, 5/10, 4/10] := rfl
  have hscore' : headerAnomalyScore (applyRules compileDefault defaultRules)
      (normalizeHeaders reqAnomalous) = some (6/5) := by
    rw [hscore, hmap]
    norm_num
  have hth : anomalyThreshold (applyRules compileDefault defaultRules) = 7/10 := rfl
  simp only [Analyze, hua, hip, hex, hscore', hth, Bool.false_eq_true, if_false]
  rw [if_pos (by norm_num)]

/-- C4 is false as stated: under the hardcoded default rules, a request with
Accept */* and no Accept-Language/Accept-Encoding reaches the header-anomaly
check with score 3/10 + 5/10 + 4/10 = 6/5 > 7/10, and Analyze returns that
unclamped score as the confidence, which lies outside [0,1]. -/

theorem analyze_confidence_counterexample :
    (Analyze (applyRules compileDefault defaultRules) ⟨fun _ => none, 60, 60000⟩ 0
      reqAnomalous).1 = some ⟨"block", "header_anomaly", 6/5⟩ ∧
    ¬ ((6 : ℚ)/5 ≤ 1) := by
  refine ⟨analyze_reqAnomalous_eval, by norm_num⟩

/-- C4 (amended): every Decision Analyze returns has confidence in [0,1]
except in the header_anomaly branch, where the confidence is the raw anomaly
score — it exceeds the configured threshold but is not clamped to 1. -/

theorem analyze_confidence (compile : Str → Option Matcher) (rs : RuleSet)
    (limiter : RateLimiterState) (now : Int) (r : Request) (d : Decision)
    (h : (Analyze (applyRules compile rs) limiter now r).1 = some d) :
    (0 ≤ d.confidence ∧ d.confidence ≤ 1) ∨
    (d.reason = "header_anomaly" ∧
      headerAnomalyScore (applyRules compile rs) (normalizeHeaders r) =
        some d.confidence ∧
      rs.anomalyThreshold < d.confidence) := by
  simp only [Analyze] at h
  split at h
  · have hd := Option.some.inj h
    left
    rw [← hd]
    norm_num
  · split at h
    · have hd := Option.some.inj h
      left
      rw [← hd]
      norm_num
    · split at h
      · have hd := Option.some.inj h
        left
        rw [← hd]
        norm_num
      · split at h
        · exact absurd h (by simp)
        · rename_i score hsc
          split at h
          · rename_i hgt
            have hd := Option.some.inj h
            right
            rw [← hd]
            exact ⟨rfl, hsc, hgt⟩
          · have hd := Option.some.inj h
            left
            rw [← hd]
            norm_num

theorem analyze_confidence_witness :
    (0 ≤ ((6 : ℚ)/5) ∧ ((6 : ℚ)/5) ≤ 1) ∨
    ("header_anomaly" = "header_anomaly" ∧
      headerAnomalyScore (applyRules compileDefault defaultRules)
        (normalizeHeaders reqAnomalous) = some (6/5) ∧
      defaultRules.anomalyThreshold < (6 : ℚ)/5) := by
  have h := analyze_confidence compileDefault defaultRules ⟨fun _ => none, 60, 60000⟩
    0 reqAnomalous ⟨"block", "header_anomaly", 6/5⟩ analyze_reqAnomalous_eval
  simpa using h

/-- Fingerprint (part_000 lines 13–21); the float64 millisecond timestamp is
modelled as `Int` (exact for every epoch-millisecond value in range). -/

theorem runPushes_noTrigger (fps : List Fingerprint) :
    ∀ tc : TelemetryState, tc.enabled = true →
      tc.buffer.length + fps.length < tc.maxBuffer →
      runPushes tc fps = ({ tc with buffer := tc.buffer ++ fps }, []) := by
  induction fps with
  | nil =>
    intro tc hen hlen
    simp [runPushes]
  | cons fp fps ih =>
    intro tc hen hlen
    have hpush : push tc fp = ({ tc with buffer := tc.buffer ++ [fp] }, false) := by
      unfold push
      rw [hen]
      simp only [Bool.not_true, Bool.false_eq_true, if_false]
      congr 1
      simp only [decide_eq_false_iff_not, not_le, List.length_append,
        List.length_cons, List.length_nil]
      simp only [List.length_cons] at hlen
      omega
    have ihh := ih { tc with buffer := tc.buffer ++ [fp] } hen
      (by
        simp only [List.length_append, List.length_cons, List.length_nil]
        simp only [List.length_cons] at hlen
        omega)
    simp only [runPushes, pushStep, hpush, Bool.false_eq_true, if_false]
    rw [ihh]
    simp

/-- C7 (amended): with telemetry enabled and fewer than maxBuffer pushes
into an empty buffer, no automatic flush fires and the single explicit flush
sends exactly one batch holding all pushed fingerprints in push order,
leaving the buffer empty; a flush of an empty buffer sends nothing; and a
push that makes the buffer reach maxBuffer itself reports the flush trigger
(run on a detached goroutine) with no explicit caller action. -/

theorem telemetry_pushFlush (tc : TelemetryState) (fps : List Fingerprint)
    (hen : tc.enabled = true) (hbuf : tc.buffer = [])
    (hlen : fps.length < tc.maxBuffer) :
    runPushes tc fps = ({ tc with buffer := fps }, []) ∧
    (fps ≠ [] →
      flush { tc with buffer := fps } = ({ tc with buffer := [] }, some fps)) ∧
    (∀ tc' : TelemetryState, tc'.buffer = [] → flush tc' = (tc', none)) ∧
    (∀ (tc' : TelemetryState) (fp : Fingerprint), tc'.enabled = true →
      tc'.maxBuffer ≤ tc'.buffer.length + 1 → (push tc' fp).2 = true) := by
  refine ⟨?_, ?_, ?_, ?_⟩
  · have h := runPushes_noTrigger fps tc hen (by rw [hbuf]; simpa using hlen)
    rw [h, hbuf]
    simp
  · intro hne
    unfold flush
    simp [hne]
  · intro tc' hb
    unfold flush
    rw [if_pos hb]
  · intro tc' fp hen' hle
    unfold push
    rw [hen']
    simp only [Bool.not_true, Bool.false_eq_true, if_false, decide_eq_true_eq,
      ge_iff_le, List.length_append, List.length_cons, List.length_nil]
    omega

/-- The fingerprint value used for claim C7's concrete inputs. -/

theorem telemetry_pushFlush_witness :
    runPushes ⟨[], 3, true⟩ [fpNull, fpNull] = (⟨[fpNull, fpNull], 3, true⟩, []) ∧
    flush ⟨[fpNull, fpNull], 3, true⟩ = (⟨[], 3, true⟩, some [fpNull, fpNull]) ∧
    flush ⟨[], 3, true⟩ = (⟨[], 3, true⟩, none) ∧
    (push ⟨[fpNull, fpNull], 3, true⟩ fpNull).2 = true := by
  have h := telemetry_pushFlush ⟨[], 3, true⟩ [fpNull, fpNull] rfl rfl (by norm_num)
  exact ⟨h.1, h.2.1 (by simp), h.2.2.1 ⟨[], 3, true⟩ rfl,
    h.2.2.2 ⟨[fpNull, fpNull], 3, true⟩ fpNull rfl (by norm_num)⟩

/-- C7 is false as stated: with maxBuffer = 1 and telemetry enabled, the
push itself reaches the cap and its triggered flush already sends the batch,
so the subsequent explicit flush finds an empty buffer and sends nothing —
the explicit flush does not produce the batch with the pushed fingerprint. -/

theorem telemetry_autoflush_counterexample :
    runPushes ⟨[], 1, true⟩ [fpNull] = (⟨[], 1, true⟩, [[fpNull]]) ∧
    flush (runPushes ⟨[], 1, true⟩ [fpNull]).1 = (⟨[], 1, true⟩, none) := by decide

/-- Go `sort.Strings`: ascending lexicographic (byte) order, modelled with
insertion sort over the lexicographic order on `List Char`, which agrees
with Go's byte order on ASCII; sorting is a unique rearrangement, so the
choice of algorithm is immaterial. -/

theorem buildFingerprint_headerOrder (r : Request) (now : Int) :
    (buildFingerprint r now).headerOrder =
      sortStrings (r.headers.map fun kv => goToLower kv.1) ∧
    List.Perm (buildFingerprint r now).headerOrder
      (r.headers.map fun kv => goToLower kv.1) ∧
    List.Sorted (fun a b => a ≤ b) (buildFingerprint r now).headerOrder := by
  refine ⟨rfl, List.perm_insertionSort _ _, List.sorted_insertionSort _ _⟩

/-- The request used for claim C8's concrete inputs. -/

theorem buildFingerprint_headerOrder_counterexample :
    (buildFingerprint reqTwoHeaders 0).headerOrder = [str "alpha", str "zebra"] ∧
    reqTwoHeaders.headers.map (fun kv => goToLower kv.1) =
      [str "zebra", str "alpha"] ∧
    (buildFingerprint reqTwoHeaders 0).headerOrder ≠
      reqTwoHeaders.headers.map fun kv => goToLower kv.1 := by decide

theorem isBlockedUA_iff_witness :
    isBlockedUA (applyRules compileDefault defaultRules) (str "My GPTBot/1.0") = true ↔
      ∃ p ∈ defaultRules.blockedUAs,
        goToLower p <:+: goToLower (str "My GPTBot/1.0") :=
  isBlockedUA_iff compileDefault defaultRules (str "My GPTBot/1.0")

theorem buildFingerprint_headerOrder_witness :
    (buildFingerprint reqTwoHeaders 0).headerOrder =
      sortStrings (reqTwoHeaders.headers.map fun kv => goToLower kv.1) ∧
    List.Perm (buildFingerprint reqTwoHeaders 0).headerOrder
      (reqTwoHeaders.headers.map fun kv => goToLower kv.1) ∧
    List.Sorted (fun a b => a ≤ b) (buildFingerprint reqTwoHeaders 0).headerOrder :=
  buildFingerprint_headerOrder reqTwoHeaders 0
